import Mathlib

/-
Verification development for `simbad_batch.py` (akdiaz/simbad).

The Python source is shallowly embedded below.  Strings are modelled as
`List Char`, clock readings and angles as `ℤ`, and fallible operations
(Python exceptions such as `IndexError`) as `Option`-valued functions.
Each section names the lines of `simbad_batch.py` it embeds.
-/

/- ===== Throttle gate (simbad_batch.py lines 20-50, 73, 103) =====

The decorator class `throttle` stores `time_of_last_call` per *instance*;
`@throttle(seconds=0.25)` is applied separately at line 73 (wrapping
`query_reference`) and at line 103 (wrapping `get_object_types`), so the
process holds two independent gate states.  A wrapper call busy-waits until
`now - time_of_last_call >= throttle_period` and afterwards records that
`now` as the new `time_of_last_call`. -/

/-- Which of the two throttled SIMBAD entry points issues a call. -/
inductive SimbadOp
  | queryReference
  | getObjectTypes
deriving DecidableEq, Repr

/-- State of the two `throttle` instances: the `time_of_last_call` recorded by
each, with `none` standing for the initial `datetime.datetime.min` (so far in
the past that any realistic clock reading passes the guard at once).
Clock readings are integers in milliseconds. -/
structure ThrottleStates where
  qr : Option ℤ
  got : Option ℤ
deriving DecidableEq, Repr

/-- Configured minimum spacing, `seconds=0.25`, in milliseconds. -/
def throttlePeriod : ℤ := 250

/-- Gate state consulted by an operation (its own decorator instance). -/
def ThrottleStates.lastOf : ThrottleStates → SimbadOp → Option ℤ
  | s, SimbadOp.queryReference => s.qr
  | s, SimbadOp.getObjectTypes => s.got

/-- Record an acquisition time in the operation's own gate instance. -/
def ThrottleStates.setLast : ThrottleStates → SimbadOp → ℤ → ThrottleStates
  | s, SimbadOp.queryReference, t => ⟨some t, s.got⟩
  | s, SimbadOp.getObjectTypes, t => ⟨s.qr, some t⟩

/-- Guard of the busy-wait loop (line 43): the wrapper proceeds at clock
reading `now` exactly when `now - time_of_last_call >= throttle_period`. -/
def acquireOk (last : Option ℤ) (now : ℤ) : Bool :=
  match last with
  | none => true
  | some t => decide (throttlePeriod ≤ now - t)

/-- Validity of a sequence of successful acquisitions: each acquisition
passes the guard of the gate instance belonging to its operation, and the
recorded time becomes that instance's new `time_of_last_call`. -/
def validAcq : ThrottleStates → List (SimbadOp × ℤ) → Bool
  | _, [] => true
  | s, (op, now) :: rest => acquireOk (s.lastOf op) now && validAcq (s.setLast op now) rest

/-- Initial process state: both decorator instances fresh. -/
def initThrottle : ThrottleStates := ⟨none, none⟩

/-- Nondecreasing sequence of clock readings. -/
def nondecreasing : List ℤ → Bool
  | [] => true
  | [_] => true
  | a :: b :: rest => decide (a ≤ b) && nondecreasing (b :: rest)

/-- A process-lifetime acquisition trace is valid when it is guard-respecting
from the initial state and the clock readings are nondecreasing (the process
is single-threaded, so successive `datetime.datetime.now()` readings never go
backwards). -/
def validTrace (tr : List (SimbadOp × ℤ)) : Bool :=
  validAcq initThrottle tr && nondecreasing (tr.map Prod.snd)

/-- Two acquisition instants separated by at least the configured interval. -/
def sepRel (a b : ℤ) : Prop := a + throttlePeriod ≤ b

instance : DecidableRel sepRel :=
  fun a b => inferInstanceAs (Decidable (a + throttlePeriod ≤ b))

instance : IsTrans ℤ sepRel :=
  ⟨fun a b c hab hbc => by
    have hp : (0 : ℤ) ≤ throttlePeriod := by norm_num [throttlePeriod]
    have : a + throttlePeriod ≤ b + throttlePeriod := by
      have := le_add_of_nonneg_right (a := b) hp
      exact le_trans hab this
    exact le_trans this hbc⟩

/-- Acquisition times of one operation, in trace order. -/
def opTimes (op : SimbadOp) (tr : List (SimbadOp × ℤ)) : List ℤ :=
  (tr.filter (fun e => decide (e.1 = op))).map Prod.snd

theorem lastOf_setLast_same (s : ThrottleStates) (op : SimbadOp) (t : ℤ) :
    (s.setLast op t).lastOf op = some t := by
  cases op <;> rfl

theorem lastOf_setLast_ne (s : ThrottleStates) {op op' : SimbadOp} (h : op' ≠ op) (t : ℤ) :
    (s.setLast op' t).lastOf op = s.lastOf op := by
  cases op <;> cases op' <;> first | rfl | exact absurd rfl h

theorem validAcq_chain (op : SimbadOp) :
    ∀ (tr : List (SimbadOp × ℤ)) (s : ThrottleStates), validAcq s tr = true →
      List.Chain' sepRel ((s.lastOf op).toList ++ opTimes op tr)
  | [], s, _ => by
    cases s.lastOf op <;> simp [opTimes]
  | (op', now) :: rest, s, h => by
    rw [validAcq, Bool.and_eq_true] at h
    have hguard := h.1
    have hrest := h.2
    by_cases hop : op' = op
    · subst hop
      have hih := validAcq_chain op' rest (s.setLast op' now) hrest
      rw [lastOf_setLast_same] at hih
      have htimes : opTimes op' ((op', now) :: rest) = now :: opTimes op' rest := by
        simp [opTimes]
      rw [htimes]
      cases hlast : s.lastOf op' with
      | none => simpa using hih
      | some t =>
        rw [hlast] at hguard
        have hsep : sepRel t now := by
          have := of_decide_eq_true hguard
          unfold sepRel
          linarith
        simpa [List.chain'_cons] using And.intro hsep (by simpa using hih)
    · have hih := validAcq_chain op rest (s.setLast op' now) hrest
      rw [lastOf_setLast_ne s hop now] at hih
      have htimes : opTimes op ((op', now) :: rest) = opTimes op rest := by
        simp [opTimes, hop]
      rw [htimes]
      exact hih

/-- C1 counterexample input: `get_object_types` acquires at time 0 and
`query_reference` acquires at the same instant; each passes its own fresh
gate, so the trace is accepted although the two acquisitions are not
separated at all. -/
def c1TraceBad : List (SimbadOp × ℤ) :=
  [(SimbadOp.getObjectTypes, 0), (SimbadOp.queryReference, 0)]

/-- Valid trace exercising both gates: the `get_object_types` acquisition at
time 125 ms sits only 125 ms after a `query_reference` acquisition, and the
two `query_reference` acquisitions sit 500 ms apart. -/
def c1TraceGood : List (SimbadOp × ℤ) :=
  [(SimbadOp.queryReference, 0), (SimbadOp.getObjectTypes, 125),
   (SimbadOp.queryReference, 500)]

/-- C1 is false as stated: the two decorated functions use two independent
`throttle` instances, so a `get_object_types` acquisition and an immediately
following `query_reference` acquisition (same clock instant) both pass their
guards, violating the claimed process-wide 0.25 s spacing between successive
calls. -/
theorem c1_counterexample :
    validTrace c1TraceBad = true ∧
      ¬ List.Chain' sepRel (c1TraceBad.map Prod.snd) := by
  constructor
  · decide
  · intro h
    have hsep : sepRel 0 0 := by simpa [c1TraceBad] using h
    unfold sepRel throttlePeriod at hsep
    norm_num at hsep

/-- C1 (amended): the throttling gate is per operation, not process-wide.
For every valid acquisition trace and each of the two operations, any two
acquisition times recorded by that operation's own gate are separated by at
least the configured 0.25 s; acquisitions made through the other operation's
gate may be arbitrarily close to them. -/
theorem c1_same_gate_spacing (tr : List (SimbadOp × ℤ)) (h : validTrace tr = true)
    (op : SimbadOp) : List.Pairwise sepRel (opTimes op tr) := by
  rw [validTrace, Bool.and_eq_true] at h
  have h1 : validAcq initThrottle tr = true := h.1
  have hch := validAcq_chain op tr initThrottle h1
  have hnone : (initThrottle.lastOf op).toList = [] := by cases op <;> rfl
  rw [hnone, List.nil_append] at hch
  exact List.chain'_iff_pairwise.mp hch

/-- C1 amended-claim witness at the concrete trace `c1TraceGood`. -/
theorem c1_same_gate_spacing_witness :
    validTrace c1TraceGood = true ∧
      List.Pairwise sepRel (opTimes SimbadOp.queryReference c1TraceGood) :=
  ⟨by decide, c1_same_gate_spacing c1TraceGood (by decide) SimbadOp.queryReference⟩

/- ===== Tooltip and annotation string processing =====

Embedding of the string primitives that `get_object_types` (lines 129-140)
applies to a marker's `title` attribute.  All scanners below are structural
recursions equivalent to the CPython string/regex operations used by the
source: `str.split`, `str.join`, `in` (substring test) and `str.replace`
with the literal pattern `'Ref'`. -/

/-- Python `title.split(",")`: cut at every comma, keeping empty pieces. -/
def splitComma : List Char → List (List Char)
  | [] => [[]]
  | c :: t =>
    match splitComma t with
    | [] => [[]]
    | h :: r => if c = ',' then [] :: h :: r else (c :: h) :: r

/-- Python `sep.join(parts)`. -/
def joinSep (sep : List Char) : List (List Char) → List Char
  | [] => []
  | [m] => m
  | m :: m₂ :: rest => m ++ sep ++ joinSep sep (m₂ :: rest)

/-- Line 133, `", ".join(r.get('title').split(","))`: every comma of the
tooltip becomes a comma followed by a space. -/
def normalizeTooltip (t : List Char) : List Char :=
  joinSep [',', ' '] (splitComma t)

/-- Python `'Ref' in title` (line 134): substring test for the literal
`Ref`. -/
def containsRef : List Char → Bool
  | c₁ :: c₂ :: c₃ :: t =>
    decide (c₁ = 'R' ∧ c₂ = 'e' ∧ c₃ = 'f') || containsRef (c₂ :: c₃ :: t)
  | _ => false

/-- Python `title.replace('Ref', rep)` (line 138): replace every
non-overlapping occurrence of the literal `Ref`, scanning left to right. -/
def replaceRef (rep : List Char) : List Char → List Char
  | c₁ :: c₂ :: c₃ :: t =>
    if c₁ = 'R' ∧ c₂ = 'e' ∧ c₃ = 'f' then rep ++ replaceRef rep t
    else c₁ :: replaceRef rep (c₂ :: c₃ :: t)
  | l => l

/-- Python `href.split('?bibcode=')` (line 137): cut at every occurrence of
the nine-character separator. -/
def splitBibSep : List Char → List (List Char)
  | c₁ :: c₂ :: c₃ :: c₄ :: c₅ :: c₆ :: c₇ :: c₈ :: c₉ :: t =>
    if c₁ = '?' ∧ c₂ = 'b' ∧ c₃ = 'i' ∧ c₄ = 'b' ∧ c₅ = 'c' ∧ c₆ = 'o' ∧
        c₇ = 'd' ∧ c₈ = 'e' ∧ c₉ = '=' then
      [] :: splitBibSep t
    else
      match splitBibSep (c₂ :: c₃ :: c₄ :: c₅ :: c₆ :: c₇ :: c₈ :: c₉ :: t) with
      | [] => [[]]
      | h :: r => (c₁ :: h) :: r
  | [] => [[]]
  | c :: t =>
    match splitBibSep t with
    | [] => [[]]
    | h :: r => (c :: h) :: r

/-- Substring test for `?bibcode=`, used to reason about `splitBibSep`. -/
def containsBibSep : List Char → Bool
  | c₁ :: c₂ :: c₃ :: c₄ :: c₅ :: c₆ :: c₇ :: c₈ :: c₉ :: t =>
    decide (c₁ = '?' ∧ c₂ = 'b' ∧ c₃ = 'i' ∧ c₄ = 'b' ∧ c₅ = 'c' ∧ c₆ = 'o' ∧
      c₇ = 'd' ∧ c₈ = 'e' ∧ c₉ = '=') || containsBibSep (c₂ :: c₃ :: c₄ :: c₅ :: c₆ :: c₇ :: c₈ :: c₉ :: t)
  | _ => false

/-- Python `href.split('?bibcode=')[-1]`: the last piece, which is the whole
string when the separator does not occur. -/
def lastBibPiece (href : List Char) : List Char :=
  (splitBibSep href).getLastD href

/- ===== Marker model and `get_object_types` (lines 104-140) ===== -/

/-- One classification marker: a `tt` element carrying a `title` attribute
inside the fourth table (line 127, `table.find_all('tt', title=True)`).  The
classification tag produced by the sibling walk of lines 130-132
(`r.previous_sibling.previous_sibling.contents[1].contents[0].strip()`) is
carried as a field because that walk happens inside BeautifulSoup's DOM;
`hrefs` lists the `href` attributes of the anchors inside the marker in
document order (line 136, `r.find_all('a')`). -/
structure Marker where
  typeTag : List Char
  tooltip : List Char
  hrefs : List (List Char)
deriving DecidableEq

/-- An HTML document reduced to what lines 124-140 inspect: the `table`
elements in document order, each reduced to its marker list. -/
structure HtmlDoc where
  tables : List (List Marker)

/-- Lines 129-140 for a single marker: normalize the tooltip's commas, and
when the result contains `Ref`, replace every occurrence of `Ref` with the
bibcode taken from the first anchor's target after `?bibcode=`, wrapped in
curly braces; `find_all('a')[0]` raises when the marker has no anchor, which
the embedding renders as `none`. -/
def processMarker (m : Marker) : Option (List Char × List Char) :=
  let title := normalizeTooltip m.tooltip
  if containsRef title then
    match m.hrefs.head? with
    | none => none
    | some href =>
      some (m.typeTag, replaceRef ('{' :: (lastBibPiece href ++ ['}'])) title)
  else
    some (m.typeTag, title)

/-- Lines 124-140 of `get_object_types` applied to an already-fetched
document: take the fourth table (`soup.find_all('table')[3]`, failing when
there are fewer than four tables) and process its markers in document order,
failing as soon as one marker fails (the generator raises while being
iterated, so the whole materialization fails). -/
def mapOption {α β : Type} (f : α → Option β) : List α → Option (List β)
  | [] => some []
  | x :: l =>
    match f x, mapOption f l with
    | some y, some ys => some (y :: ys)
    | _, _ => none

def getObjectTypes (doc : HtmlDoc) : Option (List (List Char × List Char)) :=
  match doc.tables[3]? with
  | none => none
  | some table => mapOption processMarker table

/- ===== Lemmas about the tooltip scanners ===== -/

/-- The literal token `Ref` as a character list. -/
def refTok : List Char := ['R', 'e', 'f']

/-- Test whether a string starts with the literal `Ref`. -/
def headIsRef : List Char → Bool
  | c₁ :: c₂ :: c₃ :: _ => decide (c₁ = 'R' ∧ c₂ = 'e' ∧ c₃ = 'f')
  | _ => false

theorem containsRef_cons (c : Char) (t : List Char) :
    containsRef (c :: t) = (headIsRef (c :: t) || containsRef t) := by
  cases t with
  | nil => rfl
  | cons d t' =>
    cases t' with
    | nil => rfl
    | cons e t'' => rfl

theorem headIsRef_first3 (c d e : Char) (t t' : List Char) :
    headIsRef (c :: d :: e :: t) = headIsRef (c :: d :: e :: t') := rfl

theorem headIsRef_of_ne {c : Char} (h : c ≠ 'R') (t : List Char) :
    headIsRef (c :: t) = false := by
  cases t with
  | nil => rfl
  | cons d t' =>
    cases t' with
    | nil => rfl
    | cons e t'' => simp [headIsRef, h]

theorem containsRef_append_left {x : List Char} (y : List Char)
    (h : containsRef x = true) : containsRef (x ++ y) = true := by
  induction x with
  | nil => simp [containsRef] at h
  | cons c x' ih =>
    rw [containsRef_cons, Bool.or_eq_true] at h
    rcases h with h | h
    · match x', h with
      | d :: e :: x'', h =>
        rw [List.cons_append, containsRef_cons, Bool.or_eq_true]
        exact Or.inl (by simpa [List.cons_append] using h)
    · rw [List.cons_append, containsRef_cons, Bool.or_eq_true]
      exact Or.inr (ih h)

theorem containsRef_append_right (x : List Char) {y : List Char}
    (h : containsRef y = true) : containsRef (x ++ y) = true := by
  induction x with
  | nil => simpa using h
  | cons c x' ih =>
    rw [List.cons_append, containsRef_cons, Bool.or_eq_true]
    exact Or.inr ih

theorem containsRef_split {x : List Char} :
    ∀ m : List Char, containsRef (m ++ ',' :: ' ' :: x) = true →
      containsRef m = true ∨ containsRef x = true := by
  intro m
  induction m with
  | nil =>
    intro h
    right
    cases x with
    | nil => simp [containsRef, headIsRef] at h
    | cons c x' =>
      rw [List.nil_append, containsRef_cons, Bool.or_eq_true] at h
      rcases h with h | h
      · rw [headIsRef_of_ne (by decide)] at h
        exact absurd h (by simp)
      · rw [containsRef_cons, Bool.or_eq_true] at h
        rcases h with h | h
        · rw [headIsRef_of_ne (by decide)] at h
          exact absurd h (by simp)
        · exact h
  | cons c m' ih =>
    intro h
    rw [List.cons_append, containsRef_cons, Bool.or_eq_true] at h
    rcases h with h | h
    · match m', h with
      | [], h => simp [headIsRef] at h
      | [d], h => simp [headIsRef] at h
      | d :: e :: m'', h =>
        left
        rw [containsRef_cons, Bool.or_eq_true]
        exact Or.inl (by simpa [List.cons_append] using h)
    · rcases ih h with h' | h'
      · left
        rw [containsRef_cons, Bool.or_eq_true]
        exact Or.inr h'
      · exact Or.inr h'

theorem replaceRef_cons (rep : List Char) (c : Char) (t : List Char) :
    replaceRef rep (c :: t) =
      if headIsRef (c :: t) then rep ++ replaceRef rep (t.drop 2)
      else c :: replaceRef rep t := by
  cases t with
  | nil => rfl
  | cons d t' =>
    cases t' with
    | nil => rfl
    | cons e t'' =>
      by_cases h : c = 'R' ∧ d = 'e' ∧ e = 'f'
      · simp [replaceRef, headIsRef, h]
      · simp [replaceRef, headIsRef, h]

theorem replaceRef_of_not {m : List Char} (rep : List Char)
    (h : containsRef m = false) : replaceRef rep m = m := by
  induction m with
  | nil => rfl
  | cons c m' ih =>
    rw [containsRef_cons, Bool.or_eq_false_iff] at h
    rw [replaceRef_cons, h.1, if_neg (by simp)]
    rw [ih h.2]

theorem replaceRef_tok (rep rest : List Char) :
    replaceRef rep (refTok ++ rest) = rep ++ replaceRef rep rest := by
  simp [refTok, replaceRef]

theorem replaceRef_append_sep {x : List Char} (rep : List Char) :
    ∀ m : List Char, containsRef m = false →
      replaceRef rep (m ++ ',' :: ' ' :: x) =
        m ++ ',' :: ' ' :: replaceRef rep x := by
  intro m
  induction m with
  | nil =>
    intro _
    rw [List.nil_append, replaceRef_cons, headIsRef_of_ne (by decide), if_neg (by simp),
      replaceRef_cons, headIsRef_of_ne (by decide), if_neg (by simp)]
    rfl
  | cons c m' ih =>
    intro h
    rw [containsRef_cons, Bool.or_eq_false_iff] at h
    rw [List.cons_append, replaceRef_cons]
    have hhead : headIsRef (c :: (m' ++ ',' :: ' ' :: x)) = false := by
      match m' with
      | [] => simp [headIsRef]
      | [d] => simp [headIsRef]
      | d :: e :: m'' =>
        have h1 := h.1
        simpa [headIsRef, List.cons_append] using h1
    rw [hhead, if_neg (by simp)]
    rw [ih h.2]
    rfl

theorem splitComma_ne_nil (l : List Char) : splitComma l ≠ [] := by
  cases l with
  | nil => simp [splitComma]
  | cons c t =>
    rw [splitComma]
    cases splitComma t with
    | nil => simp
    | cons h r =>
      by_cases hc : c = ','
      · simp [hc]
      · simp [hc]

theorem splitComma_no_comma {m : List Char} (h : ',' ∉ m) : splitComma m = [m] := by
  induction m with
  | nil => rfl
  | cons c m' ih =>
    have hc : c ≠ ',' := fun hc => h (hc ▸ List.mem_cons_self c m')
    have hm : ',' ∉ m' := fun hm => h (List.mem_cons_of_mem c hm)
    rw [splitComma, ih hm]
    simp [hc]

theorem splitComma_append_comma {m : List Char} (rest : List Char) (h : ',' ∉ m) :
    splitComma (m ++ ',' :: rest) = m :: splitComma rest := by
  induction m with
  | nil =>
    rw [List.nil_append, splitComma]
    cases hs : splitComma rest with
    | nil => exact absurd hs (splitComma_ne_nil rest)
    | cons hh r => simp
  | cons c m' ih =>
    have hc : c ≠ ',' := fun hc => h (hc ▸ List.mem_cons_self c m')
    have hm : ',' ∉ m' := fun hm => h (List.mem_cons_of_mem c hm)
    rw [List.cons_append, splitComma, ih hm]
    simp [hc]

theorem splitComma_joinSep :
    ∀ markers : List (List Char), markers ≠ [] →
      (∀ m ∈ markers, ',' ∉ m) →
      splitComma (joinSep [','] markers) = markers
  | [], h, _ => absurd rfl h
  | [m], _, hm => by
    rw [joinSep]
    exact splitComma_no_comma (hm m (List.mem_singleton_self m))
  | m :: m₂ :: rest, _, hm => by
    rw [joinSep]
    have : m ++ [','] ++ joinSep [','] (m₂ :: rest) =
        m ++ ',' :: joinSep [','] (m₂ :: rest) := by simp
    rw [this, splitComma_append_comma _ (hm m (List.mem_cons_self m _))]
    rw [splitComma_joinSep (m₂ :: rest) (by simp)
      (fun x hx => hm x (List.mem_cons_of_mem m hx))]

/-- Occurrence detection across a comma-space join: the token `Ref` contains
neither a comma nor a space, so it occurs in the joined string exactly when
it occurs in one of the pieces. -/
theorem containsRef_joinSep :
    ∀ markers : List (List Char),
      containsRef (joinSep [',', ' '] markers) = true ↔
        ∃ m ∈ markers, containsRef m = true
  | [] => by simp [joinSep, containsRef]
  | [m] => by
    rw [joinSep]
    constructor
    · intro h
      exact ⟨m, List.mem_singleton_self m, h⟩
    · rintro ⟨m', hm', h⟩
      rw [List.mem_singleton] at hm'
      exact hm' ▸ h
  | m :: m₂ :: rest => by
    rw [joinSep]
    have hshape : m ++ [',', ' '] ++ joinSep [',', ' '] (m₂ :: rest) =
        m ++ ',' :: ' ' :: joinSep [',', ' '] (m₂ :: rest) := by simp
    rw [hshape]
    constructor
    · intro h
      rcases containsRef_split m h with h' | h'
      · exact ⟨m, List.mem_cons_self m _, h'⟩
      · rcases (containsRef_joinSep (m₂ :: rest)).mp h' with ⟨m', hm', hc⟩
        exact ⟨m', List.mem_cons_of_mem m hm', hc⟩
    · rintro ⟨m', hm', hc⟩
      rcases List.mem_cons.mp hm' with h' | h'
      · subst h'
        exact containsRef_append_left _ hc
      · refine containsRef_append_right m ?_
        have : containsRef (joinSep [',', ' '] (m₂ :: rest)) = true :=
          (containsRef_joinSep (m₂ :: rest)).mpr ⟨m', h', hc⟩
        cases hx : joinSep [',', ' '] (m₂ :: rest) with
        | nil => rw [hx] at this; simp [containsRef] at this
        | cons d t =>
          rw [hx] at this
          have : containsRef (',' :: ' ' :: d :: t) = true := by
            rw [containsRef_cons, headIsRef_of_ne (by decide), containsRef_cons,
              headIsRef_of_ne (by decide)]
            simpa using this
          simpa using this

/-- Distribution of the `Ref` replacement over a comma-space join when every
piece is either exactly `Ref` or free of `Ref`. -/
theorem replaceRef_joinSep (rep : List Char) :
    ∀ markers : List (List Char),
      (∀ m ∈ markers, m = refTok ∨ containsRef m = false) →
      replaceRef rep (joinSep [',', ' '] markers) =
        joinSep [',', ' '] (markers.map (fun m => if m = refTok then rep else m))
  | [], _ => rfl
  | [m], hm => by
    rw [joinSep, List.map_cons, List.map_nil, joinSep]
    rcases hm m (List.mem_singleton_self m) with h | h
    · subst h
      rw [if_pos rfl]
      have h0 : replaceRef rep ([] : List Char) = [] := rfl
      have h1 := replaceRef_tok rep []
      rw [List.append_nil, h0, List.append_nil] at h1
      exact h1
    · rw [replaceRef_of_not rep h]
      have hne : m ≠ refTok := by
        intro hEq
        rw [hEq] at h
        simp [containsRef, refTok] at h
      rw [if_neg hne]
  | m :: m₂ :: rest, hm => by
    rw [joinSep]
    have hshape : m ++ [',', ' '] ++ joinSep [',', ' '] (m₂ :: rest) =
        m ++ ',' :: ' ' :: joinSep [',', ' '] (m₂ :: rest) := by simp
    rw [hshape]
    have hrest := replaceRef_joinSep rep (m₂ :: rest)
      (fun x hx => hm x (List.mem_cons_of_mem m hx))
    rcases hm m (List.mem_cons_self m _) with h | h
    · subst h
      rw [replaceRef_tok]
      have hsep0 : replaceRef rep (',' :: ' ' :: joinSep [',', ' '] (m₂ :: rest)) =
          ',' :: ' ' :: replaceRef rep (joinSep [',', ' '] (m₂ :: rest)) := by
        have := replaceRef_append_sep (x := joinSep [',', ' '] (m₂ :: rest)) rep [] rfl
        simpa using this
      rw [hsep0, hrest]
      simp [joinSep]
    · have hne : m ≠ refTok := by
        intro hEq
        rw [hEq] at h
        simp [containsRef, refTok] at h
      rw [replaceRef_append_sep rep m h, hrest]
      simp [joinSep, hne]

/-- C4 counterexample: a marker whose tooltip is `[LSK98],[RRC99]` (no `Ref`)
is not yielded unchanged — line 133 rewrites every comma to a comma followed
by a space, so the yielded annotation differs from the tooltip attribute's
value. -/
theorem c4_counterexample :
    processMarker ⟨"Rad".toList, "[LSK98],[RRC99]".toList, []⟩ =
      some ("Rad".toList, "[LSK98], [RRC99]".toList) ∧
      "[LSK98], [RRC99]".toList ≠ "[LSK98],[RRC99]".toList := by
  constructor
  · decide
  · decide

/-- C4 (amended): a tooltip is a comma-joined list of markers; line 133 first
rewrites every comma to a comma followed by a space, so the yielded
annotation equals the tooltip only up to that normalization.  For pieces free
of `Ref` the normalized string is yielded as is; when a piece is the literal
`Ref` (and the marker has an anchor), every such piece is replaced by the
first anchor's bibcode wrapped in curly braces. -/
theorem c4_tooltip_processing :
    (∀ (tag : List Char) (hrefs : List (List Char)) (markers : List (List Char)),
        markers ≠ [] → (∀ m ∈ markers, ',' ∉ m) →
        (∀ m ∈ markers, containsRef m = false) →
        processMarker ⟨tag, joinSep [','] markers, hrefs⟩ =
          some (tag, joinSep [',', ' '] markers)) ∧
    (∀ (tag href : List Char) (hrest : List (List Char)) (markers : List (List Char)),
        markers ≠ [] → (∀ m ∈ markers, ',' ∉ m) →
        (∀ m ∈ markers, m = refTok ∨ containsRef m = false) →
        processMarker ⟨tag, joinSep [','] markers, href :: hrest⟩ =
          some (tag, joinSep [',', ' ']
            (markers.map (fun m =>
              if m = refTok then '{' :: (lastBibPiece href ++ ['}']) else m)))) := by
  constructor
  · intro tag hrefs markers hne hcomma hfree
    have htitle : normalizeTooltip (joinSep [','] markers) =
        joinSep [',', ' '] markers := by
      rw [normalizeTooltip, splitComma_joinSep markers hne hcomma]
    have hno : containsRef (joinSep [',', ' '] markers) = false := by
      rw [← Bool.not_eq_true]
      intro hc
      rcases (containsRef_joinSep markers).mp hc with ⟨m, hm, hcm⟩
      rw [hfree m hm] at hcm
      exact Bool.false_ne_true hcm
    rw [processMarker]
    simp only [htitle, hno]
    rfl
  · intro tag href hrest markers hne hcomma hgood
    have htitle : normalizeTooltip (joinSep [','] markers) =
        joinSep [',', ' '] markers := by
      rw [normalizeTooltip, splitComma_joinSep markers hne hcomma]
    by_cases hex : ∃ m ∈ markers, m = refTok
    · have hyes : containsRef (joinSep [',', ' '] markers) = true := by
        rcases hex with ⟨m, hm, hEq⟩
        exact (containsRef_joinSep markers).mpr ⟨m, hm, by rw [hEq]; decide⟩
      rw [processMarker]
      simp only [htitle, hyes, if_pos]
      exact congrArg (fun l => some (tag, l)) (replaceRef_joinSep _ markers hgood)
    · have hfree : ∀ m ∈ markers, containsRef m = false := by
        intro m hm
        rcases hgood m hm with h | h
        · exact absurd ⟨m, hm, h⟩ hex
        · exact h
      have hno : containsRef (joinSep [',', ' '] markers) = false := by
        rw [← Bool.not_eq_true]
        intro hc
        rcases (containsRef_joinSep markers).mp hc with ⟨m, hm, hcm⟩
        rw [hfree m hm] at hcm
        exact Bool.false_ne_true hcm
      have hmap : markers.map (fun m =>
          if m = refTok then '{' :: (lastBibPiece href ++ ['}']) else m) = markers := by
        refine List.map_congr_left ?_ |>.trans (List.map_id markers)
        intro m hm
        have : m ≠ refTok := fun hEq => hex ⟨m, hm, hEq⟩
        simp [this]
      rw [processMarker]
      simp only [htitle, hno]
      rw [hmap]
      rfl

/-- C4 amended-claim witness at concrete markers: a bracket-designator pair
without `Ref`, and a tooltip `Ref,HOPS` whose `Ref` piece is replaced by the
anchor's bibcode in braces. -/
theorem c4_tooltip_processing_witness :
    processMarker ⟨"Rad".toList, joinSep [','] ["[LSK98]".toList, "[RRC99]".toList], []⟩ =
      some ("Rad".toList, joinSep [',', ' '] ["[LSK98]".toList, "[RRC99]".toList]) ∧
    processMarker ⟨"Y*O".toList, joinSep [','] [refTok, "HOPS".toList],
        ["/simbad/sim-ref?bibcode=2012ApJ...753L..35B".toList]⟩ =
      some ("Y*O".toList, joinSep [',', ' ']
        ([refTok, "HOPS".toList].map (fun m =>
          if m = refTok then
            '{' :: (lastBibPiece "/simbad/sim-ref?bibcode=2012ApJ...753L..35B".toList ++ ['}'])
          else m))) :=
  ⟨c4_tooltip_processing.1 "Rad".toList [] ["[LSK98]".toList, "[RRC99]".toList]
      (by decide) (by decide) (by decide),
    c4_tooltip_processing.2 "Y*O".toList "/simbad/sim-ref?bibcode=2012ApJ...753L..35B".toList
      [] [refTok, "HOPS".toList] (by decide) (by decide) (by decide)⟩


theorem splitBibSep_ne_nil : ∀ l : List Char, splitBibSep l ≠ [] := by
  intro l
  induction l using splitBibSep.induct with
  | case1 c₁ c₂ c₃ c₄ c₅ c₆ c₇ c₈ c₉ t hcond ih =>
    rw [splitBibSep.eq_1, if_pos hcond]
    simp
  | case2 c₁ c₂ c₃ c₄ c₅ c₆ c₇ c₈ c₉ t hcond hsplit ih =>
    rw [splitBibSep.eq_1, if_neg hcond, hsplit]
    simp
  | case3 c₁ c₂ c₃ c₄ c₅ c₆ c₇ c₈ c₉ t hcond h r hsplit ih =>
    rw [splitBibSep.eq_1, if_neg hcond, hsplit]
    simp
  | case4 => simp [splitBibSep]
  | case5 c t hshape hsplit ih =>
    exact absurd hsplit ih
  | case6 c t hshape h r hsplit ih =>
    rw [splitBibSep.eq_3 c t hshape, hsplit]
    simp

theorem splitBibSep_no_sep : ∀ {l : List Char}, containsBibSep l = false → splitBibSep l = [l] := by
  intro l
  induction l using splitBibSep.induct with
  | case1 c₁ c₂ c₃ c₄ c₅ c₆ c₇ c₈ c₉ t hcond ih =>
    intro h2
    rw [containsBibSep, Bool.or_eq_false_iff] at h2
    exact absurd (decide_eq_true hcond) (by simp [h2.1])
  | case2 c₁ c₂ c₃ c₄ c₅ c₆ c₇ c₈ c₉ t hcond hsplit ih =>
    exact absurd hsplit (splitBibSep_ne_nil _)
  | case3 c₁ c₂ c₃ c₄ c₅ c₆ c₇ c₈ c₉ t hcond h r hsplit ih =>
    intro h2
    rw [containsBibSep, Bool.or_eq_false_iff] at h2
    rw [splitBibSep.eq_1, if_neg hcond, ih h2.2]
  | case4 =>
    intro _
    rfl
  | case5 c t hshape hsplit ih =>
    exact absurd hsplit (splitBibSep_ne_nil _)
  | case6 c t hshape h r hsplit ih =>
    intro _
    have ht : containsBibSep t = false := by
      rcases t with _ | ⟨a1, _ | ⟨a2, _ | ⟨a3, _ | ⟨a4, _ | ⟨a5, _ | ⟨a6, _ | ⟨a7, _ | ⟨a8, t'⟩⟩⟩⟩⟩⟩⟩⟩
      · rfl
      · rfl
      · rfl
      · rfl
      · rfl
      · rfl
      · rfl
      · rfl
      · exact (hshape a1 a2 a3 a4 a5 a6 a7 a8 t' rfl).elim
    rw [splitBibSep.eq_3 c t hshape, ih ht]

theorem replaceRef_contains_rep (rep : List Char) :
    ∀ {t : List Char}, containsRef t = true → rep <:+: replaceRef rep t := by
  intro t
  induction t with
  | nil => intro h; simp [containsRef] at h
  | cons c t' ih =>
    intro h
    rw [containsRef_cons, Bool.or_eq_true] at h
    by_cases hh : headIsRef (c :: t') = true
    · match t', hh with
      | d :: e :: t'', hh =>
        rw [replaceRef_cons, if_pos hh]
        exact List.IsPrefix.isInfix (List.prefix_append rep _)
    · rcases h with h | h
      · exact absurd h hh
      · rw [replaceRef_cons, if_neg (by simpa using hh)]
        exact List.infix_cons (ih h)

/-- C10: when the tooltip (after comma normalization) contains `Ref` but the
first anchor's target has no `?bibcode=` substring, `href.split('?bibcode=')`
returns the whole target as its only piece, `[-1]` selects it, and no error
is raised: every `Ref` is replaced by the entire link target wrapped in curly
braces, which therefore occurs verbatim in the yielded annotation. -/
theorem c10_whole_href_used (tag tooltip href : List Char) (hrest : List (List Char))
    (h1 : containsRef (normalizeTooltip tooltip) = true)
    (h2 : containsBibSep href = false) :
    processMarker ⟨tag, tooltip, href :: hrest⟩ =
      some (tag, replaceRef ('{' :: (href ++ ['}'])) (normalizeTooltip tooltip)) ∧
    ('{' :: (href ++ ['}'])) <:+:
      replaceRef ('{' :: (href ++ ['}'])) (normalizeTooltip tooltip) := by
  have hl : lastBibPiece href = href := by
    rw [lastBibPiece, splitBibSep_no_sep h2]
    rfl
  constructor
  · have hstep : processMarker ⟨tag, tooltip, href :: hrest⟩ =
        some (tag, replaceRef ('{' :: (lastBibPiece href ++ ['}'])) (normalizeTooltip tooltip)) := by
      rw [processMarker]
      simp only [h1, if_pos]
      rfl
    rw [hstep, hl]
  · exact replaceRef_contains_rep _ h1

/-- C10 witness: tooltip `Ref` with an anchor target lacking `?bibcode=`. -/
theorem c10_whole_href_used_witness :
    processMarker ⟨"Em".toList, "Ref".toList, ["/simbad/sim-id=broken".toList]⟩ =
      some ("Em".toList,
        replaceRef ('{' :: ("/simbad/sim-id=broken".toList ++ ['}']))
          (normalizeTooltip "Ref".toList)) ∧
    ('{' :: ("/simbad/sim-id=broken".toList ++ ['}'])) <:+:
      replaceRef ('{' :: ("/simbad/sim-id=broken".toList ++ ['}']))
        (normalizeTooltip "Ref".toList) :=
  c10_whole_href_used "Em".toList "Ref".toList "/simbad/sim-id=broken".toList []
    (by decide) (by decide)

/- ===== Reference resolver (`query_reference`, lines 73-100) =====

`query_reference` fetches `Simbad.query_bibcode(bibcode)` and decomposes
`str(result_table[0]).strip().splitlines()` into text lines; the embedding
takes that line list directly, the remote lookup being an external
collaborator.  Parsing failures (`IndexError` from `data[4]` or `split()[0]`
or `findall(...)[0]`) are rendered as `none`. -/

/-- Python `authors_line.split()[0]` (line 95): first whitespace-delimited
token, failing on a token-free line. -/
def firstTokenWs (l : List Char) : Option (List Char) :=
  let t := (l.dropWhile (fun c => c.isWhitespace)).takeWhile (fun c => !c.isWhitespace)
  if t.isEmpty then none else some t

/-- Python `name.split('-')` (line 96): cut at every hyphen, keeping empty
pieces. -/
def splitDash : List Char → List (List Char)
  | [] => [[]]
  | c :: t =>
    match splitDash t with
    | [] => [[]]
    | h :: r => if c = '-' then [] :: h :: r else (c :: h) :: r

/-- Python `x.capitalize()` (line 96): first character uppercased, every
following character lowercased (ASCII, as in the catalog's author lines). -/
def capitalizePy : List Char → List Char
  | [] => []
  | c :: t => c.toUpper :: t.map Char.toLower

/-- Python `re.findall('\((\d{4})\)', year_line)[0]` (line 98): the first
occurrence of a parenthesized four-digit group, failing when there is
none. -/
def findYear : List Char → Option (List Char)
  | c₁ :: c₂ :: c₃ :: c₄ :: c₅ :: c₆ :: t =>
    if c₁ = '(' ∧ c₂.isDigit ∧ c₃.isDigit ∧ c₄.isDigit ∧ c₅.isDigit ∧ c₆ = ')' then
      some [c₂, c₃, c₄, c₅]
    else findYear (c₂ :: c₃ :: c₄ :: c₅ :: c₆ :: t)
  | _ => none

/-- Python `year[-2:]` (line 99). -/
def lastTwo (l : List Char) : List Char :=
  l.drop (l.length - 2)

/-- Lines 92-100 of `query_reference` applied to the response lines: surname
token of line index 4, split on hyphens, each piece capitalized, rejoined
with hyphens, concatenated with the last two digits of the parenthesized
year of line index 3.  Accesses happen in source order (`data[4]`, then
`split()[0]`, then `data[3]`, then the year pattern). -/
def resolveFromLines (data : List (List Char)) : Option (List Char) :=
  match data[4]? with
  | none => none
  | some authorsLine =>
    match firstTokenWs authorsLine with
    | none => none
    | some name =>
      let firstAuthor := joinSep ['-'] ((splitDash name).map capitalizePy)
      match data[3]? with
      | none => none
      | some yearLine =>
        match findYear yearLine with
        | none => none
        | some year => some (firstAuthor ++ lastTwo year)

/-- Response for `1999AJ....118..983R`, transcribed from the comment at
lines 81-89 of the source. -/
def reipurthResponse : List (List Char) :=
  ["References".toList,
   "----------------------------".toList,
   "1999AJ....118..983R = DOI 10.1086/300958  --  ?".toList,
   "Astron. J., 118, 983-989 (1999)".toList,
   "REIPURTH B., RODRIGUEZ L.F. and CHINI R.".toList,
   "VLA detection of protostars in OMC-2/3.".toList,
   "Flags: Table 1: <[RRC99] VLA NN> (Nos 1-14).".toList,
   "Files: (abstract)".toList]

/-- Modelled from the spec: the bibliographic-lookup response for
`2011ApJ...733...50M` is not in the repository; its shape follows section 4.2
of the specification (line index 3 carries the year in parentheses, line
index 4 the author list, first token the hyphen-compound surname). -/
def moralesResponse : List (List Char) :=
  ["References".toList,
   "----------------------------".toList,
   "2011ApJ...733...50M  --  ?".toList,
   "Astrophys. J., 733, 50 (2011)".toList,
   "MORALES-CALDERON M., STAUFFER J.R. and HILLENBRAND L.A.".toList,
   "Files: (abstract)".toList]

/-- Modelled from the spec: the bibliographic-lookup response for
`2003yCat.2246....0C`, shaped per section 4.2 of the specification. -/
def cutriResponse : List (List Char) :=
  ["References".toList,
   "----------------------------".toList,
   "2003yCat.2246....0C  --  ?".toList,
   "VizieR On-line Data Catalog: II/246 (2003)".toList,
   "CUTRI R.M., SKRUTSKIE M.F. and VAN DYK S.".toList,
   "Files: (abstract)".toList]

/-- C5: for every well-formed response, the resolver returns the first
author's surname — the first whitespace token of line index 4, split on
hyphens, each piece capitalized, rejoined with hyphens — concatenated with
the last two digits of the parenthesized four-digit year of line index 3. -/
theorem c5_resolver (data : List (List Char)) (authorsLine yearLine name year : List Char)
    (h4 : data[4]? = some authorsLine) (hname : firstTokenWs authorsLine = some name)
    (h3 : data[3]? = some yearLine) (hyear : findYear yearLine = some year) :
    resolveFromLines data =
      some (joinSep ['-'] ((splitDash name).map capitalizePy) ++ lastTwo year) := by
  simp only [resolveFromLines, h4, hname, h3, hyear]

/-- C5 witness: the three examples of the claim, the first on the response
transcribed from the source comment, the other two on spec-shaped
responses. -/
theorem c5_resolver_witness :
    resolveFromLines reipurthResponse = some "Reipurth99".toList ∧
    resolveFromLines moralesResponse = some "Morales-Calderon11".toList ∧
    resolveFromLines cutriResponse = some "Cutri03".toList := by
  refine ⟨?_, ?_, ?_⟩
  · exact (c5_resolver reipurthResponse _ _ _ _ rfl rfl rfl rfl).trans (by decide)
  · exact (c5_resolver moralesResponse _ _ _ _ rfl rfl rfl rfl).trans (by decide)
  · exact (c5_resolver cutriResponse _ _ _ _ rfl rfl rfl rfl).trans (by decide)

/-- Modelled from the spec: a response (shape per section 4.2) whose first
author surname carries an uppercase letter after the first position. -/
def mcdonaldResponse : List (List Char) :=
  ["References".toList,
   "----------------------------".toList,
   "1999XX....100....1M  --  ?".toList,
   "Astron. J., 100, 1 (1999)".toList,
   "McDONALD A. and CHINI R.".toList,
   "Files: (abstract)".toList]

/-- C9: `x.capitalize()` lowercases every character after the first of each
hyphen-separated piece, so interior uppercase in a source surname is not
preserved: `McDONALD` comes out as `Mcdonald`, and a full resolution of a
response carrying that surname yields `Mcdonald99`. -/
theorem c9_capitalize_flattens :
    (∀ seg : List Char, (capitalizePy seg).drop 1 = (seg.drop 1).map Char.toLower) ∧
    capitalizePy "McDONALD".toList = "Mcdonald".toList ∧
    resolveFromLines mcdonaldResponse = some "Mcdonald99".toList := by
  refine ⟨?_, by decide, by decide⟩
  intro seg
  cases seg with
  | nil => rfl
  | cons c t => rfl

/- ===== Error propagation (C7) ===== -/

theorem mapOption_eq_none {α β : Type} (f : α → Option β) :
    ∀ (l : List α) (a : α), a ∈ l → f a = none → mapOption f l = none := by
  intro l
  induction l with
  | nil => intro a ha; exact absurd ha (List.not_mem_nil a)
  | cons x l' ih =>
    intro a ha hfa
    rcases List.mem_cons.mp ha with h | h
    · subst h
      simp [mapOption, hfa]
    · cases hx : f x with
      | none => simp [mapOption, hx]
      | some y => simp [mapOption, hx, ih a h hfa]

/-- C7: each malformed input named by the claim makes the embedded operation
return `none` (the Python `IndexError` propagating to the caller): fewer
than five response lines; a token-free author line; a year line with no
parenthesized four-digit group; a document with fewer than four tables; and
a marker whose normalized tooltip contains `Ref` but which has no anchor.
No branch substitutes a fallback value. -/
theorem c7_error_propagation :
    (∀ data : List (List Char), data.length ≤ 4 → resolveFromLines data = none) ∧
    (∀ (data : List (List Char)) (a : List Char), data[4]? = some a →
        firstTokenWs a = none → resolveFromLines data = none) ∧
    (∀ (data : List (List Char)) (y : List Char), data[3]? = some y →
        findYear y = none → resolveFromLines data = none) ∧
    (∀ doc : HtmlDoc, doc.tables.length ≤ 3 → getObjectTypes doc = none) ∧
    (∀ (doc : HtmlDoc) (table : List Marker) (m : Marker),
        doc.tables[3]? = some table → m ∈ table →
        containsRef (normalizeTooltip m.tooltip) = true → m.hrefs = [] →
        getObjectTypes doc = none) := by
  refine ⟨?_, ?_, ?_, ?_, ?_⟩
  · intro data hlen
    have h4 : data[4]? = none := List.getElem?_eq_none (by omega)
    simp [resolveFromLines, h4]
  · intro data a h4 hft
    simp [resolveFromLines, h4, hft]
  · intro data y h3 hy
    cases h4 : data[4]? with
    | none => simp [resolveFromLines, h4]
    | some a =>
      cases hft : firstTokenWs a with
      | none => simp [resolveFromLines, h4, hft]
      | some name => simp [resolveFromLines, h4, hft, h3, hy]
  · intro doc hlen
    have h3 : doc.tables[3]? = none := List.getElem?_eq_none (by omega)
    simp [getObjectTypes, h3]
  · intro doc table m h3 hm href hanchor
    have hfail : processMarker m = none := by
      rw [processMarker]
      simp only [href, hanchor, if_pos]
      rfl
    rw [getObjectTypes, h3]
    exact mapOption_eq_none processMarker table m hm hfail

/-- C7 witness: one concrete failing input of each kind. -/
theorem c7_error_propagation_witness :
    resolveFromLines ["only".toList] = none ∧
    resolveFromLines ["a".toList, "b".toList, "c".toList,
      "Astron. J., 118, 983-989 (1999)".toList, "   ".toList] = none ∧
    resolveFromLines ["a".toList, "b".toList, "c".toList,
      "no year anywhere".toList, "REIPURTH B.".toList] = none ∧
    getObjectTypes ⟨[[], []]⟩ = none ∧
    getObjectTypes ⟨[[], [], [], [⟨"Em".toList, "Ref".toList, []⟩]]⟩ = none :=
  ⟨c7_error_propagation.1 _ (by decide),
   c7_error_propagation.2.1 _ _ rfl (by decide),
   c7_error_propagation.2.2.1 _ _ rfl (by decide),
   c7_error_propagation.2.2.2.1 _ (by decide),
   c7_error_propagation.2.2.2.2 ⟨[[], [], [], [⟨"Em".toList, "Ref".toList, []⟩]]⟩
     [⟨"Em".toList, "Ref".toList, []⟩] ⟨"Em".toList, "Ref".toList, []⟩ rfl
     (by decide) (by decide) rfl⟩

/- ===== Annotation substitution (`generate_report`, lines 183-201) =====

Line 188 fixes the pattern `'{[\w.]+}'`; `re.sub(regexp, bibcode_replacement,
refs)` replaces every non-overlapping leftmost match — an opening brace, one
or more word characters (ASCII letters, digits, underscore) or dots, and a
closing brace — by `query_reference` applied to the match stripped of its
braces.  Characters outside `[\w.]`, such as the ampersand of an A&A
bibcode, cannot be part of a match. -/

/-- Character class `[\w.]` of the pattern at line 188. -/
def isWordDot (c : Char) : Bool := c.isAlphanum || c = '_' || c = '.'

/-- One step of the regex scan for `'{[\w.]+}'`: in state `none` the scanner
is outside any candidate match; in state `some acc` it has consumed an
opening brace and the run `acc.reverse` of `[\w.]` characters.  A closing
brace after a nonempty run completes a match, which is replaced by `r`
applied to the run (the braces stripped, as in `bibcode_replacement`); any
other outcome emits the consumed characters literally and the scan resumes,
exactly as the regex engine advances after a failed candidate. -/
def subBibA (r : List Char → List Char) : Option (List Char) → List Char → List Char
  | none, [] => []
  | none, c :: t => if c = '{' then subBibA r (some []) t else c :: subBibA r none t
  | some acc, [] => '{' :: acc.reverse
  | some acc, c :: t =>
    if c = '}' then
      if acc.isEmpty then '{' :: '}' :: subBibA r none t
      else r acc.reverse ++ subBibA r none t
    else if c = '{' then
      '{' :: acc.reverse ++ subBibA r (some []) t
    else if isWordDot c then
      subBibA r (some (c :: acc)) t
    else
      '{' :: acc.reverse ++ (c :: subBibA r none t)

/-- Python `re.sub('{[\w.]+}', lambda m: r(m.group(0).strip("{}")), l)`
(lines 188-196). -/
def subBibcodes (r : List Char → List Char) (l : List Char) : List Char :=
  subBibA r none l

/-- Abstract shape of an annotation string: literal stretches (catalog
designators, separators), curly-brace-wrapped codes made of `[\w.]`
characters, and curly-brace-wrapped codes containing at least one other
character (such as `&`). -/
inductive AnnPiece
  | lit (s : List Char)
  | bib (code : List Char)
  | badBraced (code : List Char)

/-- The concrete annotation string denoted by a piece list. -/
def renderAnn : List AnnPiece → List Char
  | [] => []
  | AnnPiece.lit s :: ps => s ++ renderAnn ps
  | AnnPiece.bib c :: ps => '{' :: (c ++ '}' :: renderAnn ps)
  | AnnPiece.badBraced c :: ps => '{' :: (c ++ '}' :: renderAnn ps)

/-- The substitution the code performs: well-formed braced codes are
resolved, literals and ill-formed braced codes stay verbatim. -/
def substAnn (r : List Char → List Char) : List AnnPiece → List Char
  | [] => []
  | AnnPiece.lit s :: ps => s ++ substAnn r ps
  | AnnPiece.bib c :: ps => r c ++ substAnn r ps
  | AnnPiece.badBraced c :: ps => '{' :: (c ++ '}' :: substAnn r ps)

theorem subBibA_pass {xs : List Char} (r : List Char → List Char) (rest : List Char)
    (h : '{' ∉ xs) : subBibA r none (xs ++ rest) = xs ++ subBibA r none rest := by
  induction xs with
  | nil => rfl
  | cons c xs' ih =>
    have hc : c ≠ '{' := fun hEq => h (hEq ▸ List.mem_cons_self c xs')
    have h' : '{' ∉ xs' := fun hm => h (List.mem_cons_of_mem c hm)
    rw [List.cons_append, subBibA, if_neg hc, ih h']
    rfl

theorem isWordDot_ne_braces {c : Char} (h : isWordDot c = true) : c ≠ '}' ∧ c ≠ '{' := by
  constructor
  · intro hEq
    rw [hEq] at h
    exact absurd h (by decide)
  · intro hEq
    rw [hEq] at h
    exact absurd h (by decide)

theorem subBibA_run (r : List Char → List Char) (rest : List Char) :
    ∀ (code acc : List Char), (∀ ch ∈ code, isWordDot ch = true) →
      subBibA r (some acc) (code ++ '}' :: rest) =
        subBibA r (some (code.reverse ++ acc)) ('}' :: rest) := by
  intro code
  induction code with
  | nil => intro acc _; rfl
  | cons c code' ih =>
    intro acc hwd
    have hc : isWordDot c = true := hwd c (List.mem_cons_self c code')
    have hb := isWordDot_ne_braces hc
    rw [List.cons_append, subBibA, if_neg hb.1, if_neg hb.2, if_pos hc]
    rw [ih (c :: acc) (fun ch hch => hwd ch (List.mem_cons_of_mem c hch))]
    rw [List.reverse_cons, List.append_assoc]
    rfl

theorem subBibA_match {code : List Char} (r : List Char → List Char) (rest : List Char)
    (hne : code ≠ []) (hwd : ∀ ch ∈ code, isWordDot ch = true) :
    subBibA r none ('{' :: (code ++ '}' :: rest)) =
      r code ++ subBibA r none rest := by
  rw [subBibA, if_pos rfl, subBibA_run r rest code [] hwd, List.append_nil]
  rw [subBibA, if_pos rfl]
  have hrev : code.reverse.isEmpty = false := by
    cases hc : code.reverse with
    | nil => exact absurd (List.reverse_eq_nil_iff.mp hc) hne
    | cons d t => rfl
  rw [hrev, if_neg (by simp), List.reverse_reverse]

theorem subBibA_bad (r : List Char → List Char) (rest : List Char) :
    ∀ (code acc : List Char), '{' ∉ code → '}' ∉ code →
      (∃ ch ∈ code, isWordDot ch = false) →
      subBibA r (some acc) (code ++ '}' :: rest) =
        '{' :: (acc.reverse ++ (code ++ '}' :: subBibA r none rest)) := by
  intro code
  induction code with
  | nil =>
    intro acc _ _ hbad
    rcases hbad with ⟨ch, hm, _⟩
    exact absurd hm (List.not_mem_nil ch)
  | cons c code' ih =>
    intro acc hnl hnr hbad
    have hcl : c ≠ '{' := fun hEq => hnl (hEq ▸ List.mem_cons_self c code')
    have hcr : c ≠ '}' := fun hEq => hnr (hEq ▸ List.mem_cons_self c code')
    have hnl' : '{' ∉ code' := fun hm => hnl (List.mem_cons_of_mem c hm)
    have hnr' : '}' ∉ code' := fun hm => hnr (List.mem_cons_of_mem c hm)
    rw [List.cons_append, subBibA, if_neg hcr, if_neg hcl]
    cases hwd : isWordDot c with
    | true =>
      rw [if_pos rfl]
      have hbad' : ∃ ch ∈ code', isWordDot ch = false := by
        rcases hbad with ⟨ch, hm, hch⟩
        rcases List.mem_cons.mp hm with hEq | hm'
        · rw [hEq] at hch
          rw [hwd] at hch
          exact absurd hch (by simp)
        · exact ⟨ch, hm', hch⟩
      rw [ih (c :: acc) hnl' hnr' hbad']
      rw [List.reverse_cons, List.append_assoc]
      rfl
    | false =>
      rw [if_neg (by simp)]
      rw [subBibA_pass r ('}' :: rest) hnl']
      rw [show subBibA r none ('}' :: rest) = '}' :: subBibA r none rest from by
        rw [subBibA, if_neg (by decide)]]
      rfl

/-- Well-formedness of one annotation piece: literals are brace-free,
`bib` codes are nonempty runs of `[\w.]` characters, `badBraced` codes are
brace-free but contain at least one character outside `[\w.]`. -/
def pieceOk : AnnPiece → Prop
  | AnnPiece.lit s => '{' ∉ s
  | AnnPiece.bib c => c ≠ [] ∧ ∀ ch ∈ c, isWordDot ch = true
  | AnnPiece.badBraced c => '{' ∉ c ∧ '}' ∉ c ∧ ∃ ch ∈ c, isWordDot ch = false

instance : DecidablePred pieceOk := fun p =>
  match p with
  | AnnPiece.lit s => inferInstanceAs (Decidable ('{' ∉ s))
  | AnnPiece.bib c => inferInstanceAs (Decidable (c ≠ [] ∧ ∀ ch ∈ c, isWordDot ch = true))
  | AnnPiece.badBraced c =>
    inferInstanceAs (Decidable ('{' ∉ c ∧ '}' ∉ c ∧ ∃ ch ∈ c, isWordDot ch = false))

/-- C3 counterexample: the annotation `{2005A&A...432..161G}` wraps a
bibliographic code the extractor can emit, but the ampersand is outside the
`[\w.]` class of the pattern at line 188, so the substitution leaves the
annotation unchanged instead of producing the resolved citation. -/
theorem c3_counterexample :
    subBibcodes (fun _ => "Goddi05".toList)
        ('{' :: ("2005A&A...432..161G".toList ++ ['}'])) =
      '{' :: ("2005A&A...432..161G".toList ++ ['}']) ∧
    '{' :: ("2005A&A...432..161G".toList ++ ['}']) ≠ "Goddi05".toList := by
  constructor
  · decide
  · decide

/-- C3 (amended): in the All types section every curly-brace-wrapped maximal
run of `[\w.]` characters is substituted by the resolved citation, and
square-bracket designators (brace-free literals) are left untouched; a
braced code containing any character outside `[\w.]` — such as the `&` of an
A&A bibcode — is not matched and stays verbatim, braces included. -/
theorem c3_annotation_substitution (r : List Char → List Char) :
    ∀ ps : List AnnPiece, (∀ p ∈ ps, pieceOk p) →
      subBibcodes r (renderAnn ps) = substAnn r ps := by
  intro ps
  induction ps with
  | nil => intro _; rfl
  | cons p ps' ih =>
    intro hok
    have ih' := ih (fun q hq => hok q (List.mem_cons_of_mem p hq))
    rw [subBibcodes] at ih'
    have hp := hok p (List.mem_cons_self p ps')
    cases p with
    | lit s =>
      have hs : '{' ∉ s := hp
      rw [renderAnn, substAnn, subBibcodes, subBibA_pass r (renderAnn ps') hs, ih']
    | bib c =>
      have hc : c ≠ [] ∧ ∀ ch ∈ c, isWordDot ch = true := hp
      rw [renderAnn, substAnn, subBibcodes, subBibA_match r (renderAnn ps') hc.1 hc.2, ih']
    | badBraced c =>
      have hc : '{' ∉ c ∧ '}' ∉ c ∧ ∃ ch ∈ c, isWordDot ch = false := hp
      rw [renderAnn, substAnn, subBibcodes]
      rw [subBibA, if_pos rfl, subBibA_bad r (renderAnn ps') c [] hc.1 hc.2.1 hc.2.2]
      rw [List.reverse_nil, List.nil_append, ih']

/-- C3 amended-claim witness: an annotation holding a designator literal, a
well-formed braced bibcode, and an A&A-style braced code. -/
theorem c3_annotation_substitution_witness :
    subBibcodes (fun _ => "Goddi05".toList)
        (renderAnn [AnnPiece.lit "[RRC99], ".toList,
          AnnPiece.bib "2012ApJ...753L..35B".toList,
          AnnPiece.lit ", ".toList,
          AnnPiece.badBraced "2005A&A...432..161G".toList]) =
      substAnn (fun _ => "Goddi05".toList)
        [AnnPiece.lit "[RRC99], ".toList,
          AnnPiece.bib "2012ApJ...753L..35B".toList,
          AnnPiece.lit ", ".toList,
          AnnPiece.badBraced "2005A&A...432..161G".toList] :=
  c3_annotation_substitution (fun _ => "Goddi05".toList)
    [AnnPiece.lit "[RRC99], ".toList,
      AnnPiece.bib "2012ApJ...753L..35B".toList,
      AnnPiece.lit ", ".toList,
      AnnPiece.badBraced "2005A&A...432..161G".toList]
    (by decide)

/- ===== References section (`generate_report`, lines 205-218) ===== -/

/-- Scanner companion of `subBibA` for `re.findall('{[\w.]+}', ref)`
(line 214): collect every match, braces included, in scan order. -/
def findBracedA : Option (List Char) → List Char → List (List Char)
  | none, [] => []
  | none, c :: t => if c = '{' then findBracedA (some []) t else findBracedA none t
  | some _, [] => []
  | some acc, c :: t =>
    if c = '}' then
      if acc.isEmpty then findBracedA none t
      else ('{' :: (acc.reverse ++ ['}'])) :: findBracedA none t
    else if c = '{' then findBracedA (some []) t
    else if isWordDot c then findBracedA (some (c :: acc)) t
    else findBracedA none t

/-- Python `re.findall('{[\w.]+}', ref)`. -/
def findAllBraced (l : List Char) : List (List Char) :=
  findBracedA none l

/-- Characters removed by `r.strip("{}")` (line 215). -/
def isBrace (c : Char) : Bool := c = '{' || c = '}'

/-- Python `r.strip("{}")`: remove leading and trailing braces. -/
def stripBraces (l : List Char) : List Char :=
  ((l.dropWhile isBrace).reverse.dropWhile isBrace).reverse

/-- Line 206: `'http://simbad.u-strasbg.fr/simbad/sim-ref?bibcode={}'.format`. -/
def refUrl (b : List Char) : List Char :=
  "http://simbad.u-strasbg.fr/simbad/sim-ref?bibcode=".toList ++ b

/-- Line 216: `'{} {}'.format(query_reference(bibcode), url(bibcode))` for a
findall match, the resolver standing for the rate-gated `query_reference`. -/
def refLine (resolver : List Char → List Char) (mtch : List Char) : List Char :=
  resolver (stripBraces mtch) ++ ' ' :: refUrl (stripBraces mtch)

/-- Lines 205-218: the primary bibcode's line (raw bibcode and its URL,
line 208) first, then `sorted(unique_references)` — the deduplicated,
lexicographically sorted rendered lines collected from every findall match
of every annotation. -/
def referencesSection (resolver : List Char → List Char) (primary : List Char)
    (annotations : List (List Char)) : List (List Char) :=
  (primary ++ ' ' :: refUrl primary) ::
    List.insertionSort (· ≤ ·)
      (annotations.flatMap (fun ann => (findAllBraced ann).map (refLine resolver))).dedup

/-- C6 (amended): the references section starts with the primary bibcode's
line regardless of sort order; the remaining lines are lexicographically
sorted, duplicate-free, and are exactly the `<resolved citation> <url>`
renderings of the `'{[\w.]+}'`-pattern matches occurring in the taxonomy
annotations — not of every braced code that appears, since line 214 reuses
the pattern of line 188. -/
theorem c6_references_section (resolver : List Char → List Char)
    (primary : List Char) (annotations : List (List Char)) :
    (referencesSection resolver primary annotations).head? =
        some (primary ++ ' ' :: refUrl primary) ∧
    List.Sorted (· ≤ ·) (referencesSection resolver primary annotations).tail ∧
    (referencesSection resolver primary annotations).tail.Nodup ∧
    (∀ line : List Char,
      line ∈ (referencesSection resolver primary annotations).tail ↔
        ∃ ann ∈ annotations, ∃ m ∈ findAllBraced ann, line = refLine resolver m) := by
  refine ⟨rfl, ?_, ?_, ?_⟩
  · exact List.sorted_insertionSort (· ≤ ·) _
  · have hperm := List.perm_insertionSort (· ≤ ·)
      (annotations.flatMap (fun ann => (findAllBraced ann).map (refLine resolver))).dedup
    exact (List.Perm.nodup_iff hperm).mpr (List.nodup_dedup _)
  · intro line
    have hperm := List.perm_insertionSort (· ≤ ·)
      (annotations.flatMap (fun ann => (findAllBraced ann).map (refLine resolver))).dedup
    rw [show (referencesSection resolver primary annotations).tail =
      List.insertionSort (· ≤ ·)
        (annotations.flatMap (fun ann => (findAllBraced ann).map (refLine resolver))).dedup
      from rfl]
    rw [List.Perm.mem_iff hperm, List.mem_dedup, List.mem_flatMap]
    constructor
    · rintro ⟨ann, hann, hline⟩
      rcases List.mem_map.mp hline with ⟨m, hm, hEq⟩
      exact ⟨ann, hann, m, hm, hEq.symm⟩
    · rintro ⟨ann, hann, m, hm, hEq⟩
      exact ⟨ann, hann, List.mem_map.mpr ⟨m, hm, hEq.symm⟩⟩

/-- Annotation consisting of a single braced A&A bibcode, a shape the
extractor emits and whose code the repository's own tests resolve. -/
def c6BadAnn : List Char := '{' :: ("2005A&A...432..161G".toList ++ ['}'])

/-- C6 is false as stated: the bibliographic code `2005A&A...432..161G`
appears, curly-brace-wrapped, inside a taxonomy annotation, yet its rendered
`<resolved citation> <url>` line is absent from the references section — the
collection at line 214 reuses the `'{[\w.]+}'` pattern of line 188, and `&`
is outside that class. -/
theorem c6_counterexample :
    ('{' :: ("2005A&A...432..161G".toList ++ ['}'])) <:+: c6BadAnn ∧
    refLine (fun _ => "Goddi05".toList)
        ('{' :: ("2005A&A...432..161G".toList ++ ['}'])) ∉
      referencesSection (fun _ => "Goddi05".toList)
        "1999AJ....118..983R".toList [c6BadAnn] := by
  constructor
  · exact List.infix_rfl
  · decide

/- ===== Remote-interaction order of `generate_report` (C2) =====

In `query_coordinates` (line 164) `get_object_types(identifier)` only
creates a generator: the decorated wrapper busy-waits and then calls the
generator function, whose body — including the HTML fetch at line 123 and
all parsing — does not run until the generator is first iterated.  That
happens at line 183, `references = list(fields['all_types'])`, inside
`generate_report`, which has already called `query_reference` on the
object's primary coordinate bibcode at line 175.  Afterwards lines 195-196
resolve each annotation bibcode for the All types section, and lines 213-216
resolve each of them again for the References section. -/

/-- One remote interaction performed while a report is generated. -/
inductive RemoteEvent
  | htmlFetch
  | resolveBib (b : List Char)
deriving DecidableEq

/-- Resolution events for the bibcodes matched inside the annotations, in
document order (used once by the All types loop and once by the References
loop). -/
def annotationResolves (taxonomy : List (List Char × List Char)) : List RemoteEvent :=
  taxonomy.flatMap
    (fun e => (findAllBraced e.2).map (fun m => RemoteEvent.resolveBib (stripBraces m)))

/-- Remote interactions of `generate_report` in execution order: the primary
bibcode resolution (line 175), the generator body forced by `list(...)`
(line 183, performing the HTML fetch), then the two resolution passes over
the annotations (lines 195-196 and 213-216). -/
def generateReportEvents (primary : List Char)
    (taxonomy : List (List Char × List Char)) : List RemoteEvent :=
  RemoteEvent.resolveBib primary :: RemoteEvent.htmlFetch ::
    (annotationResolves taxonomy ++ annotationResolves taxonomy)

def isFetch : RemoteEvent → Bool
  | RemoteEvent.htmlFetch => true
  | _ => false

def isResolve : RemoteEvent → Bool
  | RemoteEvent.resolveBib _ => true
  | _ => false

/-- The claim as stated: the HTML fetch precedes every citation
resolution. -/
def extractionFirst (tr : List RemoteEvent) : Bool :=
  match tr.findIdx? isFetch, tr.findIdx? isResolve with
  | some f, some r => decide (f < r)
  | _, _ => true

/-- C2 counterexample: for the spec's own example object, the first
`query_reference` call (the primary coordinate bibcode, line 175) happens
before the taxonomy fetch occurs, because the generator is only forced at
line 183. -/
theorem c2_counterexample :
    extractionFirst (generateReportEvents "1999AJ....118..983R".toList
      [("FIR".toList, '{' :: ("2012ApJ...753L..35B".toList ++ ['}']))]) = false := by
  decide

/-- C2 (amended): within `generate_report` the primary-bibcode resolution
comes first, the taxonomy extraction (HTML fetch plus parsing, forced by
`list(...)`) comes second, and every annotation-bibcode resolution comes
after the extraction; only the primary resolution precedes it. -/
theorem c2_ordering (primary : List Char) (taxonomy : List (List Char × List Char)) :
    (generateReportEvents primary taxonomy).head? =
        some (RemoteEvent.resolveBib primary) ∧
    (generateReportEvents primary taxonomy)[1]? = some RemoteEvent.htmlFetch ∧
    RemoteEvent.htmlFetch ∉ (generateReportEvents primary taxonomy).drop 2 := by
  refine ⟨rfl, ?_, ?_⟩
  · rw [generateReportEvents]
    simp
  intro hmem
  have h2 : (generateReportEvents primary taxonomy).drop 2 =
      annotationResolves taxonomy ++ annotationResolves taxonomy := rfl
  rw [h2] at hmem
  rcases List.mem_append.mp hmem with h | h <;>
  · rw [annotationResolves] at h
    rcases List.mem_flatMap.mp h with ⟨e, _, hm⟩
    rcases List.mem_map.mp hm with ⟨m, _, hEq⟩
    exact RemoteEvent.noConfusion hEq

/- ===== Output filename (`get_output_filename`, lines 53-67) =====

`parse_coordinates` builds a `SkyCoord` from a sexagesimal line (right
ascension in hour angle, declination in degrees); `get_output_filename`
decomposes `ra.hms` and `dec.dms` and formats each triple with
`'{:02}{:02}{:06.3f}'`.  The embedding carries angles exactly: the right
ascension as `raNum / raDen` seconds of hour angle, the declination as a
sign together with `decNum / decDen` arcseconds of magnitude.  On such
inputs astropy's decomposition returns the original sexagesimal components
(for a negative declination all components carry the sign, as pinned by
`run_tests.py` lines 30-33, and line 64 takes their absolute values), `int()`
truncation of the nonnegative exact values is integer division, and the
`'{:06.3f}'` float formatting is decimal rounding half-to-even of the exact
value to three places. -/

/-- Exact parsed coordinate pair. -/
structure CoordRep where
  raNum : ℕ
  raDen : ℕ
  decNeg : Bool
  decNum : ℕ
  decDen : ℕ
deriving DecidableEq

/-- Python `line.split()`: whitespace-delimited tokens, empties dropped. -/
def wsTokens : List Char → List (List Char)
  | [] => []
  | c :: t =>
    if c.isWhitespace then wsTokens t
    else
      match t with
      | [] => [[c]]
      | d :: _ =>
        if d.isWhitespace then [c] :: wsTokens t
        else
          match wsTokens t with
          | [] => [[c]]
          | h :: r => (c :: h) :: r

/-- Decimal digit accumulator for an all-digit token. -/
def digitsValA (acc : ℕ) : List Char → Option ℕ
  | [] => some acc
  | c :: t => if c.isDigit then digitsValA (acc * 10 + (c.toNat - 48)) t else none

/-- Value of a nonempty all-digit token. -/
def digitsVal (l : List Char) : Option ℕ :=
  if l.isEmpty then none else digitsValA 0 l

/-- Cut a token at every dot. -/
def splitDot : List Char → List (List Char)
  | [] => [[]]
  | c :: t =>
    match splitDot t with
    | [] => [[]]
    | h :: r => if c = '.' then [] :: h :: r else (c :: h) :: r

/-- A decimal token `ddd` or `ddd.fff` as an exact fraction
(numerator, power-of-ten denominator). -/
def parseDecTok (l : List Char) : Option (ℕ × ℕ) :=
  match splitDot l with
  | [a] => (digitsVal a).map (fun n => (n, 1))
  | [a, b] =>
    match digitsVal a, digitsVal b with
    | some x, some y => some (x * 10 ^ b.length + y, 10 ^ b.length)
    | _, _ => none
  | _ => none

/-- A decimal token with an optional leading sign. -/
def parseSigned (l : List Char) : Option (Bool × ℕ × ℕ) :=
  match l with
  | '-' :: t => (parseDecTok t).map (fun p => (true, p.1, p.2))
  | '+' :: t => (parseDecTok t).map (fun p => (false, p.1, p.2))
  | _ => (parseDecTok l).map (fun p => (false, p.1, p.2))

/-- Total `h*3600 + m*60 + s` seconds of a sexagesimal triple, as an exact
fraction. -/
def tripleToSec (h m s : ℕ × ℕ) : ℕ × ℕ :=
  (h.1 * 3600 * m.2 * s.2 + m.1 * 60 * h.2 * s.2 + s.1 * h.2 * m.2,
    h.2 * m.2 * s.2)

/-- Lines 53-55 (`parse_coordinates`): a line `hh mm ss.sss ±dd mm ss.ss`
as an exact coordinate pair. -/
def parseCoordLine (l : List Char) : Option CoordRep :=
  match wsTokens l with
  | [h, m, s, d, dm, ds] =>
    match parseDecTok h, parseDecTok m, parseDecTok s,
        parseSigned d, parseDecTok dm, parseDecTok ds with
    | some hh, some mm, some ss, some (neg, dnum, dden), some dmm, some dss =>
      let ra := tripleToSec hh mm ss
      let dec := tripleToSec (dnum, dden) dmm dss
      some ⟨ra.1, ra.2, neg, dec.1, dec.2⟩
    | _, _, _, _, _, _ => none
  | _ => none

/-- Decimal digit characters. -/
def digitChar : ℕ → Char
  | 0 => '0'
  | 1 => '1'
  | 2 => '2'
  | 3 => '3'
  | 4 => '4'
  | 5 => '5'
  | 6 => '6'
  | 7 => '7'
  | 8 => '8'
  | 9 => '9'
  | _ => '0'

/-- Decimal digits of `n`, most significant first (fuel-driven). -/
def natDigitsAux : ℕ → ℕ → List Char
  | 0, _ => []
  | f + 1, n => if n < 10 then [digitChar n] else natDigitsAux f (n / 10) ++ [digitChar (n % 10)]

/-- Decimal digits of `n`. -/
def natDigits (n : ℕ) : List Char :=
  natDigitsAux (n + 1) n

/-- Zero padding to a field width, as in `'{:02}'`. -/
def padTo (w : ℕ) (ds : List Char) : List Char :=
  List.replicate (w - ds.length) '0' ++ ds

/-- Round `a / b` to the nearest integer, ties to even (the rounding of
CPython's fixed-point float formatting), for `b > 0`. -/
def roundHalfEvenDiv (a b : ℕ) : ℕ :=
  let q := a / b
  let r := a % b
  if 2 * r < b then q
  else if b < 2 * r then q + 1
  else if q % 2 = 0 then q else q + 1

/-- The `'{:06.3f}'` field for the exact seconds value `num / den`. -/
def fmtSec (num den : ℕ) : List Char :=
  let n := roundHalfEvenDiv (num * 1000) den
  padTo 2 (natDigits (n / 1000)) ++ '.' :: padTo 3 (natDigits (n % 1000))

/-- The `'{:02}{:02}{:06.3f}'` rendering (line 60) of the sexagesimal
decomposition of `num / den` total seconds. -/
def sexaFmt (num den : ℕ) : List Char :=
  padTo 2 (natDigits (num / (3600 * den))) ++
    padTo 2 (natDigits (num % (3600 * den) / (60 * den))) ++
    fmtSec (num % (3600 * den) % (60 * den)) den

/-- Lines 57-67 (`get_output_filename`): `'J{ra}{sep}{dec}.txt'` with the
separator `'+' if input_coords.dec >= 0 else '-'` and the declination
components taken in absolute value. -/
def getOutputFilename (c : CoordRep) : List Char :=
  'J' :: (sexaFmt c.raNum c.raDen ++
    (if c.decNeg ∧ c.decNum ≠ 0 then '-' else '+') ::
      (sexaFmt c.decNum c.decDen ++ ".txt".toList))

/-- Exact declination value in degrees, for stating the sign contract. -/
def decValue (c : CoordRep) : ℚ :=
  if c.decNeg then -((c.decNum : ℚ) / (c.decDen : ℚ)) else (c.decNum : ℚ) / (c.decDen : ℚ)

theorem digitChar_isDigit (k : ℕ) : (digitChar k).isDigit = true := by
  match k with
  | 0 | 1 | 2 | 3 | 4 | 5 | 6 | 7 | 8 | 9 => rfl
  | n + 10 => rfl

theorem mem_natDigitsAux_isDigit :
    ∀ (f n : ℕ) (c : Char), c ∈ natDigitsAux f n → c.isDigit = true := by
  intro f
  induction f with
  | zero => intro n c hc; exact absurd hc (List.not_mem_nil c)
  | succ f ih =>
    intro n c hc
    rw [natDigitsAux] at hc
    by_cases hn : n < 10
    · rw [if_pos hn, List.mem_singleton] at hc
      rw [hc]
      exact digitChar_isDigit n
    · rw [if_neg hn] at hc
      rcases List.mem_append.mp hc with h | h
      · exact ih (n / 10) c h
      · rw [List.mem_singleton] at h
        rw [h]
        exact digitChar_isDigit _

theorem plus_not_mem_padTo {w n : ℕ} : '+' ∉ padTo w (natDigits n) := by
  intro h
  rcases List.mem_append.mp h with h | h
  · exact absurd (List.eq_of_mem_replicate h) (by decide)
  · exact absurd (mem_natDigitsAux_isDigit _ _ _ h) (by decide)

theorem plus_not_mem_fmtSec {num den : ℕ} : '+' ∉ fmtSec num den := by
  intro h
  rw [fmtSec] at h
  rcases List.mem_append.mp h with h | h
  · exact plus_not_mem_padTo h
  · rcases List.mem_cons.mp h with h | h
    · exact absurd h (by decide)
    · exact plus_not_mem_padTo h

theorem plus_not_mem_sexaFmt {num den : ℕ} : '+' ∉ sexaFmt num den := by
  intro h
  rw [sexaFmt, fmtSec] at h
  rcases List.mem_append.mp h with h | h
  · rcases List.mem_append.mp h with h | h <;> exact plus_not_mem_padTo h
  · rcases List.mem_append.mp h with h | h
    · exact plus_not_mem_padTo h
    · rcases List.mem_cons.mp h with h | h
      · exact absurd h (by decide)
      · exact plus_not_mem_padTo h

theorem plusSep_iff (c : CoordRep) :
    '+' ∈ getOutputFilename c ↔ ¬(c.decNeg = true ∧ c.decNum ≠ 0) := by
  rw [getOutputFilename]
  by_cases hcond : c.decNeg = true ∧ c.decNum ≠ 0
  · rw [if_pos hcond]
    constructor
    · intro h
      rcases List.mem_cons.mp h with h | h
      · exact absurd h (by decide)
      rcases List.mem_append.mp h with h | h
      · exact absurd h plus_not_mem_sexaFmt
      rcases List.mem_cons.mp h with h | h
      · exact absurd h (by decide)
      rcases List.mem_append.mp h with h | h
      · exact absurd h plus_not_mem_sexaFmt
      · exact absurd h (by decide)
    · intro h
      exact absurd hcond h
  · rw [if_neg hcond]
    constructor
    · intro _
      exact hcond
    · intro _
      exact List.mem_cons_of_mem 'J'
        (List.mem_append.mpr (Or.inr (List.mem_cons_self '+' _)))

/-- C8: the derived filenames of the two claimed coordinate pairs, and the
sign contract — the separator character is `'+'` exactly when the
declination value is nonnegative (equivalently, when the parsed sign is not
negative or the magnitude is zero), every other character of the fixed
zero-padded pattern being a digit, a dot, `J`, or the extension. -/
theorem c8_filename :
    ((parseCoordLine "05 35 24.550 -05 06 59.00".toList).map getOutputFilename =
      some "J053524.550-050659.000.txt".toList) ∧
    ((parseCoordLine "21 39 00.0 +57 29 24".toList).map getOutputFilename =
      some "J213900.000+572924.000.txt".toList) ∧
    (∀ c : CoordRep, ('+' ∈ getOutputFilename c ↔ ¬(c.decNeg = true ∧ c.decNum ≠ 0))) ∧
    (∀ c : CoordRep, 0 < c.decDen →
      ((0 : ℚ) ≤ decValue c ↔ '+' ∈ getOutputFilename c)) := by
  refine ⟨by decide, by decide, fun c => plusSep_iff c, ?_⟩
  intro c hden
  rw [plusSep_iff c, decValue]
  by_cases hneg : c.decNeg = true
  · rw [if_pos hneg]
    by_cases hnum : c.decNum = 0
    · rw [hnum]
      refine iff_of_true (by norm_num) ?_
      intro h
      exact h.2 rfl
    · refine iff_of_false ?_ ?_
      · rw [neg_nonneg, not_le]
        refine div_pos ?_ ?_
        · exact_mod_cast Nat.pos_of_ne_zero hnum
        · exact_mod_cast hden
      · intro h
        exact h ⟨hneg, hnum⟩
  · rw [if_neg hneg]
    refine iff_of_true (div_nonneg (Nat.cast_nonneg _) (Nat.cast_nonneg _)) ?_
    intro h
    exact hneg h.1

/-- C8 witness for the sign conjunct at a concrete negative-declination
coordinate. -/
theorem c8_filename_witness :
    0 < (⟨20124550, 1000, true, 18419, 1⟩ : CoordRep).decDen ∧
      ((0 : ℚ) ≤ decValue ⟨20124550, 1000, true, 18419, 1⟩ ↔
        '+' ∈ getOutputFilename ⟨20124550, 1000, true, 18419, 1⟩) :=
  ⟨by decide, c8_filename.2.2.2 ⟨20124550, 1000, true, 18419, 1⟩ (by decide)⟩
